import Mathlib

/-
Verification of the cache-backed playlist reconciliation workflow of
`scrape.py` (repository `mission-culture-vulture`).

The Python program is shallowly embedded: the flat JSON song cache becomes
an association list in insertion order, the external collaborators (the
chat-completion classifier, the catalog search, the playlist add/remove
endpoints) become explicit function parameters or explicit list
transformations, and the two Python runtime failure modes that the source
can actually trigger (`NameError` on the unbound local `track_uri`,
`KeyError` on the cache write `song_cache[concat_name][SPOTIFY_ID] = ...`)
become an `Except` error monad.
-/

namespace Scrape

/-- A song row of the input dataframe: the `title` and `artist` columns
read in `classify_spanish_music` (scrape.py line 56). -/
structure Row where
  title : String
  artist : String
deriving DecidableEq

/-- A cache record, per the schema documented in `load_cache` (scrape.py
lines 28-36): field `OAI_RES` holds the classifier label, field
`SPOTIFY_ID` holds the resolved track id or `null`.  Every record the
program creates carries both fields (scrape.py line 75), so the record type
is total in both fields. -/
structure CacheRecord where
  oai_res : String
  spotify_id : Option String
deriving DecidableEq

/-- The song cache `dict[str, dict]`, modelled as an association list in
insertion order (Python dicts preserve insertion order). -/
abbrev Cache := List (String × CacheRecord)

/-- Python `k in d` / `d[k]` on the cache dict. -/
def lookupKey : Cache → String → Option CacheRecord
  | [], _ => none
  | (k', v) :: rest, k => if k' = k then some v else lookupKey rest k

/-- Python `d[k] = v` on the cache dict: replace in place when the key is
present, append otherwise. -/
def insertKey : Cache → String → CacheRecord → Cache
  | [], k, v => [(k, v)]
  | (k', v') :: rest, k, v =>
      if k' = k then (k', v) :: rest else (k', v') :: insertKey rest k v

/-- Instrumented state of the `classify_spanish_music` loop (scrape.py
lines 51-80): the accumulated `spanish_songs`, the evolving `song_cache`,
plus two traces used only to state properties — the rows actually sent to
the external classifier (`calls`) and every processed row paired with the
label used for it (`labeled`). -/
structure CState where
  spanish : List Row
  cache : Cache
  calls : List Row
  labeled : List (Row × String)
deriving DecidableEq

/-- One iteration of the `classify_spanish_music` loop (scrape.py lines
55-78).  `oracle` models the external chat-completion call: the raw label
text the service returns for a row. -/
def classify_step (oracle : Row → String) (st : CState) (row : Row) : CState :=
  let key := row.title ++ row.artist
  match lookupKey st.cache key with
  | some r =>
      { st with
        spanish := if r.oai_res = "Yes" then st.spanish ++ [row] else st.spanish
        labeled := st.labeled ++ [(row, r.oai_res)] }
  | none =>
      let answer := oracle row
      { st with
        cache := insertKey st.cache key ⟨answer, none⟩
        calls := st.calls ++ [row]
        spanish := if answer = "Yes" then st.spanish ++ [row] else st.spanish
        labeled := st.labeled ++ [(row, answer)] }

/-- `classify_spanish_music(df, song_cache)` (scrape.py lines 51-80). -/
def classify_spanish_music (rows : List Row) (cache : Cache)
    (oracle : Row → String) : CState :=
  rows.foldl (classify_step oracle) ⟨[], cache, [], []⟩

/-- A playlist entry as fetched by `get_playlist_tracks` (scrape.py lines
113-122): the pair `(item.track.id, item.track.uri)`. -/
structure Track where
  id : String
  uri : String
deriving DecidableEq

/-- The first item of a `sp.search(..., limit=1)` response (scrape.py lines
149-153): its URI and its id. -/
structure SearchHit where
  uri : String
  id : String
deriving DecidableEq

/-- Observable external events of the resolver loop: the `time.sleep(15)`
throttle pause (line 146) and an actual `sp.search` call (line 149). -/
inductive Ev where
  | sleep : Ev
  | search : Ev
deriving DecidableEq

/-- The two Python runtime errors the `update_spotify_playlist` loop can
raise: `NameError` when line 157 reads the local `track_uri` before any
successful search has bound it, and `KeyError` when line 154 writes
`song_cache[concat_name][SPOTIFY_ID]` for a key absent from the cache. -/
inductive PyErr where
  | nameErrorTrackUri : PyErr
  | keyErrorCacheWrite : PyErr
deriving DecidableEq

/-- Python truthiness of `song_cache[concat_name][SPOTIFY_ID]` (line 139):
`None` and the empty string are falsy. -/
def truthyId (r : CacheRecord) : Bool :=
  match r.spotify_id with
  | some s => s != ""
  | none => false

/-- State of the `update_spotify_playlist` song loop (scrape.py lines
133-158): the mutated `song_cache`, the accumulated `tracks_to_add`, the
throttle counter `song_num`, the Python local variable `track_uri`
(`none` = not yet bound, reading it then raises `NameError`), and the
emitted event trace. -/
structure LoopState where
  cache : Cache
  tracks_to_add : List String
  song_num : Nat
  track_uri : Option String
  events : List Ev
deriving DecidableEq

/-- Lines 156-157: `if track_id not in existing_track_ids:
tracks_to_add.append(track_uri)`.  A `track_id` of Python `None` is never
among the (string) membership ids, and the append reads the local
`track_uri`, raising `NameError` when it is still unbound. -/
def append_step (existing_ids : List String) (st : LoopState)
    (track_id : Option String) : Except PyErr LoopState :=
  let member := match track_id with
    | some s => existing_ids.contains s
    | none => false
  if member then .ok st
  else
    match st.track_uri with
    | none => .error .nameErrorTrackUri
    | some uri => .ok { st with tracks_to_add := st.tracks_to_add ++ [uri] }

/-- One iteration of the `update_spotify_playlist` song loop (scrape.py
lines 136-158).  `search` models `sp.search(q, type='track', limit=1)`
restricted to its first item: `none` when the search returns no items. -/
def update_step (search : Row → Option SearchHit) (existing_ids : List String)
    (st : LoopState) (song : Row) : Except PyErr LoopState :=
  let concat := song.title ++ song.artist
  let hit := match lookupKey st.cache concat with
    | some r => if truthyId r then some r else none
    | none => none
  match hit with
  | some r => append_step existing_ids st r.spotify_id
  | none =>
      let evs := (if st.song_num % 500 = 0 then [Ev.sleep] else []) ++ [Ev.search]
      let st1 := { st with song_num := st.song_num + 1, events := st.events ++ evs }
      match search song with
      | some h =>
          match lookupKey st1.cache concat with
          | none => .error .keyErrorCacheWrite
          | some r =>
              let st2 := { st1 with
                cache := insertKey st1.cache concat { r with spotify_id := some h.id }
                track_uri := some h.uri }
              append_step existing_ids st2 (some h.id)
      | none => append_step existing_ids st1 none

/-- The whole song loop of `update_spotify_playlist` (scrape.py lines
133-158), started from `tracks_to_add = []`, `song_num = 1` and an unbound
`track_uri`. -/
def update_loop (search : Row → Option SearchHit) (existing_ids : List String)
    (songs : List Row) (cache : Cache) : Except PyErr LoopState :=
  List.foldlM (update_step search existing_ids) ⟨cache, [], 1, none, []⟩ songs

/-- Fuelled form of the batching loop `for i in range(0, len(l), 100):
l[i:i+100]` (scrape.py lines 162-163); `chunk100` supplies enough fuel. -/
def chunk100Aux : Nat → List String → List (List String)
  | 0, _ => []
  | _, [] => []
  | fuel + 1, l => l.take 100 :: chunk100Aux fuel (l.drop 100)

/-- The list of batches submitted by `user_playlist_add_tracks` calls
(scrape.py lines 160-166); an empty `tracks_to_add` yields no call. -/
def chunk100 (l : List String) : List (List String) :=
  chunk100Aux l.length l

/-- First-occurrence key order of `Counter(track_ids).items()` (Python
`Counter` preserves insertion order). -/
def dedupFirst (seen : List String) : List String → List String
  | [] => []
  | x :: xs =>
      if seen.contains x then dedupFirst seen xs
      else x :: dedupFirst (x :: seen) xs

/-- `remove_duplicates(sp, playlist_id)` (scrape.py lines 172-183) acting
on the playlist contents.  `tracks` is the membership snapshot of line 173;
for each id occurring more than once the code calls
`playlist_remove_all_occurrences_of_items(playlist_id, dup_uris[1:])`, and
that spotipy endpoint removes every playlist entry whose URI is among the
given URIs (all occurrences of each passed URI, not specific positions). -/
def remove_duplicates (playlist : List Track) : List Track :=
  let tracks := playlist
  let ids := tracks.map (fun t => t.id)
  let dups := (dedupFirst [] ids).filter (fun i => decide (1 < ids.count i))
  dups.foldl (fun pl dupId =>
    let dupUris := (tracks.filter (fun t => t.id == dupId)).map (fun t => t.uri)
    pl.filter (fun t => !(dupUris.drop 1).contains t.uri)) playlist

/-- Result of one `update_spotify_playlist` call (scrape.py lines 124-170):
the playlist contents after the batched additions and the
`remove_duplicates` call, the returned `song_cache`, the computed
`tracks_to_add`, the add-call batches, and the resolver event trace. -/
structure UpdateResult where
  playlist : List Track
  cache : Cache
  tracks_to_add : List String
  add_calls : List (List String)
  events : List Ev
deriving DecidableEq

/-- `update_spotify_playlist` (scrape.py lines 124-170) including its final
call to `remove_duplicates` (line 168).  `playlist` is the current remote
playlist content fetched by `get_playlist_tracks` (line 131); `catalog`
maps a track URI to the id of the track it denotes, so that the batched
`user_playlist_add_tracks` calls append the corresponding entries. -/
def update_spotify_playlist (search : Row → Option SearchHit)
    (catalog : String → String) (playlist : List Track) (songs : List Row)
    (cache : Cache) : Except PyErr UpdateResult :=
  let existing_ids := playlist.map (fun t => t.id)
  match update_loop search existing_ids songs cache with
  | .error e => .error e
  | .ok st =>
      let added := st.tracks_to_add.map (fun u => Track.mk (catalog u) u)
      let pl := remove_duplicates (playlist ++ added)
      .ok ⟨pl, st.cache, st.tracks_to_add, chunk100 st.tracks_to_add, st.events⟩

/-- Specification trace of the resolver loop's throttle: `mkTrace 1 m` is
the event sequence produced by `m` consecutive cache misses — for the j-th
external search (j = 1, 2, ...), a `sleep` immediately precedes the search
exactly when `j % 500 = 0`, because scrape.py line 145 tests `song_num`
(which starts at 1 and counts misses) BEFORE issuing the search. -/
def mkTrace : Nat → Nat → List Ev
  | _, 0 => []
  | k, m + 1 =>
      ((if k % 500 = 0 then [Ev.sleep] else []) ++ [Ev.search]) ++ mkTrace (k + 1) m

/-- Number of search events preceding the first sleep event of a trace. -/
def searchesBeforeFirstSleep : List Ev → Nat
  | [] => 0
  | Ev.sleep :: _ => 0
  | Ev.search :: rest => searchesBeforeFirstSleep rest + 1

/-- A 500-miss input for the resolver loop: one song whose search succeeds
(binding `track_uri`) followed by 499 copies of a song whose search finds
nothing, all with cached records lacking a track id, so every iteration
hits the external search service. -/
def c6songs : List Row := ⟨"a", ""⟩ :: List.replicate 499 ⟨"b", ""⟩

/-- Cache for `c6songs`: both keys present, no track id stored. -/
def c6cache : Cache := [("a", ⟨"Yes", none⟩), ("b", ⟨"Yes", none⟩)]

/-- Search oracle for `c6songs`: only the first song resolves. -/
def c6search : Row → Option SearchHit :=
  fun row => if row.title = "a" then some ⟨"ua", "A"⟩ else none

/-- The double-quote character. -/
def qc : Char := Char.ofNat 34

/-- The backslash character. -/
def bsC : Char := Char.ofNat 92

/-- The opening-brace character of a JSON object. -/
def lbC : Char := Char.ofNat 123

/-- The closing-brace character of a JSON object. -/
def rbC : Char := Char.ofNat 125

/-- The colon character. -/
def colonC : Char := Char.ofNat 58

/-- The space character. -/
def spC : Char := Char.ofNat 32

/-- The comma character. -/
def commaC : Char := Char.ofNat 44

/-- JSON string-body escaping as performed by the `json` module for the
characters that require it in this schema: a double quote or backslash is
preceded by a backslash, every other character is emitted unchanged. -/
def escapeChars : List Char → List Char
  | [] => []
  | c :: rest => (if c = qc ∨ c = bsC then [bsC, c] else [c]) ++ escapeChars rest

/-- A JSON string literal: opening quote, escaped body, closing quote. -/
def strLit (s : String) : List Char := qc :: (escapeChars s.data ++ [qc])

/-- The JSON literal `null`. -/
def nullChars : List Char := ['n', 'u', 'l', 'l']

/-- The characters of the fixed record key `OAI_RES` (scrape.py line 23). -/
def oaiKeyChars : List Char := ['O', 'A', 'I', '_', 'R', 'E', 'S']

/-- The characters of the fixed record key `SPOTIFY_ID` (line 24). -/
def sidKeyChars : List Char := ['S', 'P', 'O', 'T', 'I', 'F', 'Y', '_', 'I', 'D']

/-- Serialized record up to the `OAI_RES` value: opening brace, quoted
`OAI_RES` key, colon, space. -/
def recHdr1 : List Char := [lbC, qc] ++ oaiKeyChars ++ [qc, colonC, spC]

/-- Serialized separator between the `OAI_RES` value and the `SPOTIFY_ID`
value: comma, space, quoted `SPOTIFY_ID` key, colon, space. -/
def recHdr2 : List Char := [commaC, spC, qc] ++ sidKeyChars ++ [qc, colonC, spC]

/-- Serialization of the `SPOTIFY_ID` field: a JSON string or `null`. -/
def idLit : Option String → List Char
  | some s => strLit s
  | none => nullChars

/-- Serialization of one cache record, in the shape `json.dump` writes for
the dict `\x7b OAI_RES: answer, SPOTIFY_ID: id-or-null \x7d` (line 75). -/
def serializeRecord (r : CacheRecord) : List Char :=
  recHdr1 ++ (strLit r.oai_res ++ (recHdr2 ++ (idLit r.spotify_id ++ [rbC])))

/-- Serialization of one cache entry: quoted key, colon, space, record. -/
def serializeEntry (e : String × CacheRecord) : List Char :=
  strLit e.1 ++ ([colonC, spC] ++ serializeRecord e.2)

/-- Comma-and-space-separated serialization of the cache entries. -/
def serializeEntries : Cache → List Char
  | [] => []
  | [e] => serializeEntry e
  | e :: e' :: tl => serializeEntry e ++ ([commaC, spC] ++ serializeEntries (e' :: tl))

/-- Serialization of the full cache object, as `json.dump(cache, f)` writes
it (scrape.py line 46). -/
def serializeCache (c : Cache) : List Char :=
  lbC :: (serializeEntries c ++ [rbC])

/-- `save_cache(path, cache)` (scrape.py lines 44-46): the file content
written (the `json.dump` serialization of the mapping). -/
def save_cache (c : Cache) : List Char := serializeCache c

/-- Parser for a JSON string body after the opening quote, inverting
`escapeChars`: stops at an unescaped quote, undoes backslash escapes,
rejects ill-formed escapes and unterminated strings. -/
def parseStringBody : List Char → Option (List Char × List Char)
  | [] => none
  | c :: rest =>
      if c = qc then some ([], rest)
      else
        if c = bsC then
          match rest with
          | [] => none
          | d :: rest2 =>
              if d = qc ∨ d = bsC then
                match parseStringBody rest2 with
                | some (s, r) => some (d :: s, r)
                | none => none
              else none
        else
          match parseStringBody rest with
          | some (s, r) => some (c :: s, r)
          | none => none

/-- Parser for a JSON string literal including its opening quote. -/
def parseStr (input : List Char) : Option (List Char × List Char) :=
  match input with
  | [] => none
  | c :: rest => if c = qc then parseStringBody rest else none

/-- Consume an expected literal character sequence, or fail. -/
def dropPfx : List Char → List Char → Option (List Char)
  | [], input => some input
  | _ :: _, [] => none
  | e :: es, c :: cs => if c = e then dropPfx es cs else none

/-- Parser for a `SPOTIFY_ID` value: a JSON string or the literal
`null`. -/
def parseIdOpt (input : List Char) : Option (Option String × List Char) :=
  match input with
  | [] => none
  | c :: _ =>
      if c = qc then
        match parseStr input with
        | some (s, r) => some (some (String.mk s), r)
        | none => none
      else
        match dropPfx nullChars input with
        | some r => some (none, r)
        | none => none

/-- Parser for one serialized cache record. -/
def parseRecord (input : List Char) : Option (CacheRecord × List Char) :=
  match dropPfx recHdr1 input with
  | none => none
  | some r1 =>
      match parseStr r1 with
      | none => none
      | some (oai, r2) =>
          match dropPfx recHdr2 r2 with
          | none => none
          | some r3 =>
              match parseIdOpt r3 with
              | none => none
              | some (sid, r4) =>
                  match dropPfx [rbC] r4 with
                  | none => none
                  | some r5 => some (⟨String.mk oai, sid⟩, r5)

/-- Fuelled parser for a non-empty entry sequence followed by the closing
brace of the cache object; consumes the closing brace. -/
def parseEntries : Nat → List Char → Option (Cache × List Char)
  | 0, _ => none
  | fuel + 1, input =>
      match parseStr input with
      | none => none
      | some (k, r1) =>
          match dropPfx [colonC, spC] r1 with
          | none => none
          | some r2 =>
              match parseRecord r2 with
              | none => none
              | some (cr, r3) =>
                  match r3 with
                  | [] => none
                  | c :: r4 =>
                      if c = rbC then some ([(String.mk k, cr)], r4)
                      else
                        if c = commaC then
                          match dropPfx [spC] r4 with
                          | none => none
                          | some r5 =>
                              match parseEntries fuel r5 with
                              | none => none
                              | some (es, r6) => some ((String.mk k, cr) :: es, r6)
                        else none

/-- Parser for a full serialized cache object: `json.load` succeeds exactly
on well-formed content with nothing trailing. -/
def parseCache (input : List Char) : Option Cache :=
  match input with
  | [] => none
  | c :: rest =>
      if c = lbC then
        match rest with
        | [] => none
        | d :: rest2 =>
            if d = rbC then (if rest2.isEmpty then some [] else none)
            else
              match parseEntries input.length rest with
              | none => none
              | some (es, rem) => if rem.isEmpty then some es else none
      else none

/-- Failure mode of `load_cache` on an existing but malformed store: the
uncaught `json.JSONDecodeError` that aborts the run. -/
inductive CacheError where
  | corrupt : CacheError
deriving DecidableEq

/-- `load_cache(path)` (scrape.py lines 27-42) over the backing store
state: `none` models a missing file (`FileNotFoundError` is caught and an
empty mapping returned), `some content` an existing file whose bytes are
`content`; malformed content raises (uncaught) out of `json.load`. -/
def load_cache (store : Option (List Char)) : Except CacheError Cache :=
  match store with
  | none => .ok []
  | some content =>
      match parseCache content with
      | some c => .ok c
      | none => .error .corrupt

/-- C1: the claim says a desired song whose catalog resolution returns no
id is skipped (absent from to-add, no crash).  The code instead checks
`track_id not in existing_track_ids` — Python `None` is never among the
string ids — and then appends the local `track_uri`.  First conjunct: with
a single unresolved song the run raises `NameError` (`track_uri` was never
bound).  Second conjunct: after one successful search, an unresolved song
appends the PREVIOUS song's URI, so `tracks_to_add` is `["u1", "u1"]`
instead of `["u1"]`, and the resulting duplicate is then wiped entirely by
`remove_duplicates`. -/
theorem C1_unresolved_song_not_skipped :
    update_spotify_playlist (fun _ => none) (fun u => u) []
      [⟨"s1", "a1"⟩] [("s1a1", ⟨"Yes", none⟩)]
      = .error .nameErrorTrackUri ∧
    update_spotify_playlist
      (fun row => if row.title = "s1" then some ⟨"u1", "A"⟩ else none)
      (fun _ => "A") [] [⟨"s1", "a1"⟩, ⟨"s2", "a2"⟩]
      [("s1a1", ⟨"Yes", none⟩), ("s2a2", ⟨"Yes", none⟩)]
      = .ok ⟨[], [("s1a1", ⟨"Yes", some "A"⟩), ("s2a2", ⟨"Yes", none⟩)],
             ["u1", "u1"], [["u1", "u1"]], [.search, .search]⟩ := by
  constructor
  · rfl
  · rfl

/-- C2: the claim (and the spec's dedup-convergence property) says a
playlist with track id "T1" three times and "T2" once ends with exactly one
"T1".  Since every occurrence of one track id carries the same URI, passing
`dup_uris[1:]` to `playlist_remove_all_occurrences_of_items` removes ALL
occurrences of that URI: the code ends with zero "T1" entries. -/
theorem C2_dedup_removes_all_occurrences :
    remove_duplicates
      [⟨"T1", "spotify:track:T1"⟩, ⟨"T1", "spotify:track:T1"⟩,
       ⟨"T1", "spotify:track:T1"⟩, ⟨"T2", "spotify:track:T2"⟩]
      = [⟨"T2", "spotify:track:T2"⟩] := by
  rfl

/-- C3: the claim says reconciliation is idempotent and converges to one
entry per desired track.  Counter-run: one desired song with cached track
id "A", remote playlist holding "A" twice.  The first run computes an empty
to-add list but `remove_duplicates` then deletes BOTH occurrences of "A"
(same URI), leaving the playlist EMPTY instead of converging to one entry;
the second run then finds "A" missing and crashes with `NameError` (cache
hit, so `track_uri` is never bound). -/
theorem C3_reconciliation_not_idempotent :
    update_spotify_playlist (fun _ => none) (fun u => u)
      [⟨"A", "uA"⟩, ⟨"A", "uA"⟩] [⟨"t", "a"⟩] [("ta", ⟨"Yes", some "A"⟩)]
      = .ok ⟨[], [("ta", ⟨"Yes", some "A"⟩)], [], [], []⟩ ∧
    update_spotify_playlist (fun _ => none) (fun u => u)
      [] [⟨"t", "a"⟩] [("ta", ⟨"Yes", some "A"⟩)]
      = .error .nameErrorTrackUri := by
  constructor
  · rfl
  · rfl

theorem lookup_insert (c : Cache) (k' k : String) (v' : CacheRecord) :
    lookupKey (insertKey c k' v') k
      = if k' = k then some v' else lookupKey c k := by
  induction c with
  | nil => simp [insertKey, lookupKey]
  | cons p rest ih =>
      obtain ⟨a, b⟩ := p
      by_cases hak : a = k'
      · subst hak
        by_cases h : a = k <;> simp [insertKey, lookupKey, h]
      · by_cases h : a = k
        · subst h
          have hk : ¬(k' = a) := fun hh => hak hh.symm
          simp [insertKey, lookupKey, hak, hk]
        · simp [insertKey, lookupKey, hak, h, ih]

theorem lookup_insert_isSome (c : Cache) (k' k : String) (v' : CacheRecord)
    (h : (lookupKey c k).isSome) :
    (lookupKey (insertKey c k' v') k).isSome := by
  rw [lookup_insert]
  by_cases hk : k' = k <;> simp [hk, h]

theorem classify_step_lookup (oracle : Row → String) (st : CState) (row : Row)
    (k : String) (v : CacheRecord) (h : lookupKey st.cache k = some v) :
    lookupKey (classify_step oracle st row).cache k = some v := by
  cases hl : lookupKey st.cache (row.title ++ row.artist) with
  | some r => simpa [classify_step, hl] using h
  | none =>
      have hne : ¬(row.title ++ row.artist = k) := by
        intro he; rw [he, h] at hl; cases hl
      simp [classify_step, hl, lookup_insert, hne, h]

theorem classify_fold_lookup (oracle : Row → String) (rows : List Row)
    (st : CState) (k : String) (v : CacheRecord)
    (h : lookupKey st.cache k = some v) :
    lookupKey (List.foldl (classify_step oracle) st rows).cache k = some v := by
  induction rows generalizing st with
  | nil => exact h
  | cons r rs ih => exact ih _ (classify_step_lookup oracle st r k v h)

theorem classify_step_isSome (oracle : Row → String) (st : CState) (row : Row)
    (k : String) (h : (lookupKey st.cache k).isSome) :
    (lookupKey (classify_step oracle st row).cache k).isSome := by
  obtain ⟨v, hv⟩ := Option.isSome_iff_exists.mp h
  exact Option.isSome_iff_exists.mpr ⟨v, classify_step_lookup oracle st row k v hv⟩

theorem classify_fold_isSome (oracle : Row → String) (rows : List Row)
    (st : CState) (k : String) (h : (lookupKey st.cache k).isSome) :
    (lookupKey (List.foldl (classify_step oracle) st rows).cache k).isSome := by
  induction rows generalizing st with
  | nil => exact h
  | cons r rs ih => exact ih _ (classify_step_isSome oracle st r k h)

theorem classify_step_calls (oracle : Row → String) (st : CState) (row : Row) :
    (classify_step oracle st row).calls = st.calls ∨
    ((classify_step oracle st row).calls = st.calls ++ [row] ∧
      lookupKey st.cache (row.title ++ row.artist) = none) := by
  cases hl : lookupKey st.cache (row.title ++ row.artist) with
  | some r => left; simp [classify_step, hl]
  | none => right; exact ⟨by simp [classify_step, hl], rfl⟩

theorem classify_fold_calls (oracle : Row → String) (rows : List Row)
    (st : CState) (k : String) (v : CacheRecord)
    (h : lookupKey st.cache k = some v) :
    ∀ row ∈ (List.foldl (classify_step oracle) st rows).calls,
      row ∈ st.calls ∨ ¬(row.title ++ row.artist = k) := by
  induction rows generalizing st with
  | nil => intro row hr; exact .inl hr
  | cons r rs ih =>
      intro row hr
      have h1 : lookupKey (classify_step oracle st r).cache k = some v :=
        classify_step_lookup oracle st r k v h
      rcases ih (classify_step oracle st r) h1 row hr with hin | hne
      · rcases classify_step_calls oracle st r with hc | ⟨hc, habs⟩
        · rw [hc] at hin; exact .inl hin
        · rw [hc] at hin
          rcases List.mem_append.mp hin with hin' | hin'
          · exact .inl hin'
          · right
            have : row = r := by simpa using hin'
            subst this
            intro he; rw [he, h] at habs; cases habs
      · exact .inr hne

theorem classify_step_labeled (oracle : Row → String) (st : CState) (row : Row) :
    (classify_step oracle st row).labeled
      = st.labeled ++ [(row,
          match lookupKey st.cache (row.title ++ row.artist) with
          | some r => r.oai_res
          | none => oracle row)] := by
  cases hl : lookupKey st.cache (row.title ++ row.artist) with
  | some r => simp [classify_step, hl]
  | none => simp [classify_step, hl]

theorem classify_fold_labeled (oracle : Row → String) (rows : List Row)
    (st : CState) (k : String) (v : CacheRecord)
    (h : lookupKey st.cache k = some v) :
    ∀ p ∈ (List.foldl (classify_step oracle) st rows).labeled,
      p ∈ st.labeled ∨ (p.1.title ++ p.1.artist = k → p.2 = v.oai_res) := by
  induction rows generalizing st with
  | nil => intro p hp; exact .inl hp
  | cons r rs ih =>
      intro p hp
      have h1 : lookupKey (classify_step oracle st r).cache k = some v :=
        classify_step_lookup oracle st r k v h
      rcases ih (classify_step oracle st r) h1 p hp with hin | hgood
      · rw [classify_step_labeled] at hin
        rcases List.mem_append.mp hin with hin' | hin'
        · exact .inl hin'
        · right
          cases hl : lookupKey st.cache (r.title ++ r.artist) with
          | some rc =>
              rw [hl] at hin'
              have hp' : p = (r, rc.oai_res) := by simpa using hin'
              subst hp'
              intro hk
              have : some rc = some v := by rw [← hl, hk, h]
              simp only [Option.some.injEq] at this
              rw [this]
          | none =>
              rw [hl] at hin'
              have hp' : p = (r, oracle r) := by simpa using hin'
              subst hp'
              intro hk
              rw [hk, h] at hl; cases hl
      · exact .inr hgood

/-- C4: a row whose composite key is already cached causes no external
classification call, is classified with the stored `OAI_RES` value, and its
cache record is never overwritten (classification is immutable for the
cache's lifetime).  Formally, for any key `k` present in the initial cache
with record `v`: the returned cache still maps `k` to `v` unchanged, no row
sent to the external classifier has key `k`, and every processed row with
key `k` is labeled with the stored value `v.oai_res`. -/
theorem C4_cache_memoization (rows : List Row) (cache0 : Cache)
    (oracle : Row → String) (k : String) (v : CacheRecord)
    (h : lookupKey cache0 k = some v) :
    lookupKey (classify_spanish_music rows cache0 oracle).cache k = some v ∧
    (∀ row ∈ (classify_spanish_music rows cache0 oracle).calls,
      ¬(row.title ++ row.artist = k)) ∧
    (∀ p ∈ (classify_spanish_music rows cache0 oracle).labeled,
      p.1.title ++ p.1.artist = k → p.2 = v.oai_res) := by
  refine ⟨classify_fold_lookup oracle rows ⟨[], cache0, [], []⟩ k v h, ?_, ?_⟩
  · intro row hr
    rcases classify_fold_calls oracle rows ⟨[], cache0, [], []⟩ k v h row hr with
      hin | hne
    · cases hin
    · exact hne
  · intro p hp
    rcases classify_fold_labeled oracle rows ⟨[], cache0, [], []⟩ k v h p hp with
      hin | hgood
    · cases hin
    · exact hgood

theorem C4_cache_memoization_witness :
    lookupKey (classify_spanish_music [⟨"Despacito", "Luis Fonsi"⟩]
        [("DespacitoLuis Fonsi", ⟨"Yes", none⟩)] (fun _ => "No")).cache
      "DespacitoLuis Fonsi" = some ⟨"Yes", none⟩ ∧
    ∀ row ∈ (classify_spanish_music [⟨"Despacito", "Luis Fonsi"⟩]
        [("DespacitoLuis Fonsi", ⟨"Yes", none⟩)] (fun _ => "No")).calls,
      ¬(row.title ++ row.artist = "DespacitoLuis Fonsi") := by
  have h := C4_cache_memoization [⟨"Despacito", "Luis Fonsi"⟩]
    [("DespacitoLuis Fonsi", ⟨"Yes", none⟩)] (fun _ => "No")
    "DespacitoLuis Fonsi" ⟨"Yes", none⟩ (by rfl)
  exact ⟨h.1, h.2.1⟩

theorem classify_step_spanish (oracle : Row → String) (st : CState) (row : Row)
    (h : st.spanish
      = (st.labeled.filter (fun p => p.2 == "Yes")).map Prod.fst) :
    (classify_step oracle st row).spanish
      = ((classify_step oracle st row).labeled.filter
          (fun p => p.2 == "Yes")).map Prod.fst := by
  cases hl : lookupKey st.cache (row.title ++ row.artist) with
  | some r =>
      by_cases hy : r.oai_res = "Yes" <;>
        simp [classify_step, hl, h, List.filter_append, hy]
  | none =>
      by_cases hy : oracle row = "Yes" <;>
        simp [classify_step, hl, h, List.filter_append, hy]

theorem classify_fold_spanish (oracle : Row → String) (rows : List Row)
    (st : CState)
    (h : st.spanish
      = (st.labeled.filter (fun p => p.2 == "Yes")).map Prod.fst) :
    (List.foldl (classify_step oracle) st rows).spanish
      = (((List.foldl (classify_step oracle) st rows).labeled.filter
          (fun p => p.2 == "Yes")).map Prod.fst) := by
  induction rows generalizing st with
  | nil => exact h
  | cons r rs ih => exact ih _ (classify_step_spanish oracle st r h)

/-- C8: a row enters the returned Spanish subset exactly when the label
used for it is the exact string "Yes": the `spanish_songs` list equals the
processed rows filtered by label `== "Yes"` (scrape.py line 77), and case
or whitespace variants such as "yes", "YES" or "Yes " are treated as
negative. -/
theorem C8_exact_yes_filter (rows : List Row) (cache0 : Cache)
    (oracle : Row → String) :
    (classify_spanish_music rows cache0 oracle).spanish
      = (((classify_spanish_music rows cache0 oracle).labeled.filter
          (fun p => p.2 == "Yes")).map Prod.fst) ∧
    (classify_spanish_music [⟨"t", "a"⟩] [] (fun _ => "yes")).spanish = [] ∧
    (classify_spanish_music [⟨"t", "a"⟩] [] (fun _ => "YES")).spanish = [] ∧
    (classify_spanish_music [⟨"t", "a"⟩] [] (fun _ => "Yes ")).spanish = [] ∧
    (classify_spanish_music [⟨"t", "a"⟩] [] (fun _ => " Yes")).spanish = [] ∧
    (classify_spanish_music [⟨"t", "a"⟩] [] (fun _ => "Yes")).spanish
      = [⟨"t", "a"⟩] := by
  refine ⟨classify_fold_spanish oracle rows ⟨[], cache0, [], []⟩ rfl,
    ?_, ?_, ?_, ?_, ?_⟩ <;> rfl

theorem append_step_shape (ids : List String) (st : LoopState)
    (tid : Option String) :
    append_step ids st tid = .error .nameErrorTrackUri ∨
    ∃ l, append_step ids st tid = .ok { st with tracks_to_add := l } := by
  simp only [append_step]
  rcases tid with _ | s
  · cases htu : st.track_uri with
    | none => left; rfl
    | some uri => right; exact ⟨st.tracks_to_add ++ [uri], rfl⟩
  · by_cases hc : ids.contains s = true
    · right
      refine ⟨st.tracks_to_add, ?_⟩
      rw [if_pos hc]
    · cases htu : st.track_uri with
      | none => left; rw [if_neg hc]
      | some uri =>
          right
          exact ⟨st.tracks_to_add ++ [uri], by rw [if_neg hc]⟩

theorem append_step_ok (ids : List String) (st : LoopState)
    (tid : Option String) (st' : LoopState)
    (h : append_step ids st tid = .ok st') :
    st'.cache = st.cache ∧ st'.song_num = st.song_num ∧
      st'.events = st.events := by
  rcases append_step_shape ids st tid with hs | ⟨l, hs⟩
  · rw [hs] at h; cases h
  · rw [hs] at h
    cases h
    exact ⟨rfl, rfl, rfl⟩

theorem append_step_no_keyError (ids : List String) (st : LoopState)
    (tid : Option String) :
    append_step ids st tid ≠ .error .keyErrorCacheWrite := by
  rcases append_step_shape ids st tid with hs | ⟨l, hs⟩ <;> rw [hs] <;>
    intro hcon <;> cases hcon

theorem update_step_isSome (search : Row → Option SearchHit)
    (ids : List String) (st : LoopState) (song : Row) (st' : LoopState)
    (hstep : update_step search ids st song = .ok st') (k : String)
    (h : (lookupKey st.cache k).isSome) : (lookupKey st'.cache k).isSome := by
  simp only [update_step] at hstep
  cases hl : lookupKey st.cache (song.title ++ song.artist) with
  | some r =>
      simp only [hl] at hstep
      by_cases ht : truthyId r
      · simp only [ht, if_true] at hstep
        rw [(append_step_ok _ _ _ _ hstep).1]
        exact h
      · simp only [ht, if_false, Bool.false_eq_true] at hstep
        cases hsearch : search song with
        | some hres =>
            simp only [hsearch, hl] at hstep
            rw [(append_step_ok _ _ _ _ hstep).1]
            exact lookup_insert_isSome _ _ _ _ h
        | none =>
            simp only [hsearch] at hstep
            rw [(append_step_ok _ _ _ _ hstep).1]
            exact h
  | none =>
      simp only [hl] at hstep
      cases hsearch : search song with
      | some hres =>
          simp only [hsearch, hl] at hstep
          cases hstep
      | none =>
          simp only [hsearch] at hstep
          rw [(append_step_ok _ _ _ _ hstep).1]
          exact h

theorem update_step_no_keyError (search : Row → Option SearchHit)
    (ids : List String) (st : LoopState) (song : Row)
    (h : (lookupKey st.cache (song.title ++ song.artist)).isSome) :
    update_step search ids st song ≠ .error .keyErrorCacheWrite := by
  simp only [update_step]
  cases hl : lookupKey st.cache (song.title ++ song.artist) with
  | some r =>
      simp only [hl]
      by_cases ht : truthyId r
      · simp only [ht, if_true]
        exact append_step_no_keyError _ _ _
      · simp only [ht, if_false, Bool.false_eq_true]
        cases hsearch : search song with
        | some hres =>
            simp only [hsearch, hl]
            exact append_step_no_keyError _ _ _
        | none =>
            simp only [hsearch]
            exact append_step_no_keyError _ _ _
  | none =>
      rw [hl] at h; cases h

theorem update_fold_no_keyError (search : Row → Option SearchHit)
    (ids : List String) (songs : List Row) (st : LoopState)
    (h : ∀ song ∈ songs,
      (lookupKey st.cache (song.title ++ song.artist)).isSome) :
    List.foldlM (update_step search ids) st songs
      ≠ .error .keyErrorCacheWrite := by
  induction songs generalizing st with
  | nil => intro hcon; cases hcon
  | cons s ss ih =>
      have hrw : List.foldlM (update_step search ids) st (s :: ss)
          = (update_step search ids st s).bind
              (fun st1 => List.foldlM (update_step search ids) st1 ss) := rfl
      rw [hrw]
      cases hstep : update_step search ids st s with
      | error e =>
          intro hcon
          simp only [Except.bind] at hcon
          cases hcon
          exact update_step_no_keyError search ids st s (h s (by simp)) hstep
      | ok st1 =>
          simp only [Except.bind]
          exact ih st1 (fun song hs =>
            update_step_isSome search ids st s st1 hstep _
              (h song (List.mem_cons_of_mem _ hs)))

/-- C10: after `classify_spanish_music` returns, every input row's
composite key is present in the returned cache (with both record fields,
which the record type carries by construction), every returned Spanish song
also has its key present, and consequently the resolver's cache write
`song_cache[concat_name][SPOTIFY_ID] = track_id` in
`update_spotify_playlist` (line 154) always finds its key: the song loop
run on the classifier's output can never raise that `KeyError`. -/
theorem C10_cache_key_invariant (rows : List Row) (cache0 : Cache)
    (oracle : Row → String) (search : Row → Option SearchHit)
    (existing_ids : List String) :
    (∀ row ∈ rows,
      (lookupKey (classify_spanish_music rows cache0 oracle).cache
        (row.title ++ row.artist)).isSome) ∧
    (∀ row ∈ (classify_spanish_music rows cache0 oracle).spanish,
      (lookupKey (classify_spanish_music rows cache0 oracle).cache
        (row.title ++ row.artist)).isSome) ∧
    update_loop search existing_ids
        (classify_spanish_music rows cache0 oracle).spanish
        (classify_spanish_music rows cache0 oracle).cache
      ≠ .error .keyErrorCacheWrite := by
  have hrows : ∀ row ∈ rows,
      (lookupKey (classify_spanish_music rows cache0 oracle).cache
        (row.title ++ row.artist)).isSome := by
    have main : ∀ (rows' : List Row) (st : CState), ∀ row ∈ rows',
        (lookupKey (List.foldl (classify_step oracle) st rows').cache
          (row.title ++ row.artist)).isSome := by
      intro rows'
      induction rows' with
      | nil => intro st row hr; cases hr
      | cons r rs ih =>
          intro st row hr
          rcases List.mem_cons.mp hr with hr' | hr'
          · subst hr'
            refine classify_fold_isSome oracle rs (classify_step oracle st row)
              _ ?_
            cases hl : lookupKey st.cache (row.title ++ row.artist) with
            | some rc => simp [classify_step, hl]
            | none => simp [classify_step, hl, lookup_insert]
          · exact ih (classify_step oracle st r) row hr'
    exact main rows ⟨[], cache0, [], []⟩
  have hsp : ∀ row ∈ (classify_spanish_music rows cache0 oracle).spanish,
      (lookupKey (classify_spanish_music rows cache0 oracle).cache
        (row.title ++ row.artist)).isSome := by
    have main : ∀ (rows' : List Row) (st : CState),
        (∀ row ∈ st.spanish,
          (lookupKey st.cache (row.title ++ row.artist)).isSome) →
        ∀ row ∈ (List.foldl (classify_step oracle) st rows').spanish,
          (lookupKey (List.foldl (classify_step oracle) st rows').cache
            (row.title ++ row.artist)).isSome := by
      intro rows'
      induction rows' with
      | nil => intro st h row hr; exact h row hr
      | cons r rs ih =>
          intro st h row hr
          refine ih (classify_step oracle st r) ?_ row hr
          intro row' hrow'
          cases hl : lookupKey st.cache (r.title ++ r.artist) with
          | some rc =>
              by_cases hy : rc.oai_res = "Yes"
              · simp only [classify_step, hl, hy, if_true] at hrow' ⊢
                rcases List.mem_append.mp hrow' with hin | hin
                · exact h row' hin
                · have : row' = r := by simpa using hin
                  subst this
                  simp [hl]
              · simp only [classify_step, hl, hy, if_false] at hrow' ⊢
                exact h row' hrow'
          | none =>
              by_cases hy : oracle r = "Yes"
              · simp only [classify_step, hl, hy, if_true] at hrow' ⊢
                rcases List.mem_append.mp hrow' with hin | hin
                · exact lookup_insert_isSome _ _ _ _ (h row' hin)
                · have : row' = r := by simpa using hin
                  subst this
                  simp [lookup_insert]
              · simp only [classify_step, hl, hy, if_false] at hrow' ⊢
                exact lookup_insert_isSome _ _ _ _ (h row' hrow')
    exact main rows ⟨[], cache0, [], []⟩ (by intro row hr; cases hr)
  exact ⟨hrows, hsp, update_fold_no_keyError search existing_ids _ _ hsp⟩

theorem C10_cache_key_invariant_witness :
    update_loop (fun _ => some ⟨"u", "i"⟩) []
        (classify_spanish_music [⟨"t", "a"⟩] [] (fun _ => "Yes")).spanish
        (classify_spanish_music [⟨"t", "a"⟩] [] (fun _ => "Yes")).cache
      ≠ .error .keyErrorCacheWrite :=
  (C10_cache_key_invariant [⟨"t", "a"⟩] [] (fun _ => "Yes")
    (fun _ => some ⟨"u", "i"⟩) []).2.2

theorem mkTrace_snoc (m k : Nat) :
    mkTrace k (m + 1)
      = mkTrace k m
        ++ ((if (k + m) % 500 = 0 then [Ev.sleep] else []) ++ [Ev.search]) := by
  induction m generalizing k with
  | zero => simp [mkTrace]
  | succ n ih =>
      rw [show mkTrace k (n + 1 + 1)
            = ((if k % 500 = 0 then [Ev.sleep] else []) ++ [Ev.search])
              ++ mkTrace (k + 1) (n + 1) from rfl,
          ih (k + 1),
          show mkTrace k (n + 1)
            = ((if k % 500 = 0 then [Ev.sleep] else []) ++ [Ev.search])
              ++ mkTrace (k + 1) n from rfl]
      have hkn : k + 1 + n = k + (n + 1) := by omega
      rw [hkn]
      simp [List.append_assoc]

theorem count_search_mkTrace (m k : Nat) :
    (mkTrace k m).count Ev.search = m := by
  induction m generalizing k with
  | zero => rfl
  | succ n ih =>
      by_cases h : k % 500 = 0 <;>
        simp [mkTrace, h, List.count_append, List.count_cons, ih (k + 1)]

theorem update_step_trace (search : Row → Option SearchHit)
    (ids : List String) (st : LoopState) (song : Row) (st' : LoopState)
    (hstep : update_step search ids st song = .ok st')
    (he : st.events = mkTrace 1 (st.song_num - 1)) (h1 : 1 ≤ st.song_num) :
    st'.events = mkTrace 1 (st'.song_num - 1) ∧ 1 ≤ st'.song_num := by
  have hkey : st.events
      ++ ((if st.song_num % 500 = 0 then [Ev.sleep] else []) ++ [Ev.search])
      = mkTrace 1 (st.song_num + 1 - 1) := by
    obtain ⟨m, hm⟩ : ∃ m, st.song_num = m + 1 := ⟨st.song_num - 1, by omega⟩
    rw [he, hm]
    have h2 : m + 1 - 1 = m := by omega
    have h3 : m + 1 + 1 - 1 = m + 1 := by omega
    rw [h2, h3, mkTrace_snoc]
    have h4 : 1 + m = m + 1 := by omega
    rw [h4]
  simp only [update_step] at hstep
  cases hl : lookupKey st.cache (song.title ++ song.artist) with
  | some r =>
      simp only [hl] at hstep
      by_cases ht : truthyId r
      · simp only [ht, if_true] at hstep
        obtain ⟨_, hs, hev⟩ := append_step_ok _ _ _ _ hstep
        rw [hev, hs]
        exact ⟨he, h1⟩
      · simp only [ht, if_false, Bool.false_eq_true] at hstep
        cases hsearch : search song with
        | some hres =>
            simp only [hsearch, hl] at hstep
            obtain ⟨_, hs, hev⟩ := append_step_ok _ _ _ _ hstep
            rw [hev, hs]
            exact ⟨hkey, Nat.succ_le_succ (Nat.zero_le _)⟩
        | none =>
            simp only [hsearch] at hstep
            obtain ⟨_, hs, hev⟩ := append_step_ok _ _ _ _ hstep
            rw [hev, hs]
            exact ⟨hkey, Nat.succ_le_succ (Nat.zero_le _)⟩
  | none =>
      simp only [hl] at hstep
      cases hsearch : search song with
      | some hres =>
          simp only [hsearch, hl] at hstep
          cases hstep
      | none =>
          simp only [hsearch] at hstep
          obtain ⟨_, hs, hev⟩ := append_step_ok _ _ _ _ hstep
          rw [hev, hs]
          exact ⟨hkey, Nat.succ_le_succ (Nat.zero_le _)⟩

theorem update_fold_trace (search : Row → Option SearchHit)
    (ids : List String) (songs : List Row) (st st' : LoopState)
    (hfold : List.foldlM (update_step search ids) st songs = .ok st')
    (he : st.events = mkTrace 1 (st.song_num - 1)) (h1 : 1 ≤ st.song_num) :
    st'.events = mkTrace 1 (st'.song_num - 1) ∧ 1 ≤ st'.song_num := by
  induction songs generalizing st with
  | nil =>
      cases hfold
      exact ⟨he, h1⟩
  | cons s ss ih =>
      have hrw : List.foldlM (update_step search ids) st (s :: ss)
          = (update_step search ids st s).bind
              (fun st1 => List.foldlM (update_step search ids) st1 ss) := rfl
      rw [hrw] at hfold
      cases hstep : update_step search ids st s with
      | error e => rw [hstep] at hfold; cases hfold
      | ok st1 =>
          rw [hstep] at hfold
          obtain ⟨he1, h11⟩ := update_step_trace search ids st s st1 hstep he h1
          exact ih st1 hfold he1 h11

/-- C6 (amended): the throttle pause occurs immediately BEFORE the 500th,
1000th, ... external search call — not after every 500 completed calls —
because scrape.py line 145 tests the miss counter (which starts at 1)
before issuing the search of the current miss; cache hits increment nothing
and trigger no pause.  Formally, every successful run of the
`update_spotify_playlist` song loop produces exactly the event trace
`mkTrace 1 m` where `m` is the number of external searches: for the j-th
search a sleep immediately precedes it exactly when `j % 500 = 0`. -/
theorem C6_throttle_amended (search : Row → Option SearchHit)
    (existing_ids : List String) (songs : List Row) (cache0 : Cache)
    (st : LoopState)
    (h : update_loop search existing_ids songs cache0 = .ok st) :
    st.events = mkTrace 1 (st.events.count Ev.search) := by
  obtain ⟨he, h1⟩ := update_fold_trace search existing_ids songs
    ⟨cache0, [], 1, none, []⟩ st h rfl le_rfl
  rw [he, count_search_mkTrace]

theorem C6_throttle_amended_witness :
    (LoopState.mk [("ab", ⟨"Yes", some "X"⟩)] [] 2 (some "u") [Ev.search]).events
      = mkTrace 1
        ((LoopState.mk [("ab", ⟨"Yes", some "X"⟩)] [] 2 (some "u")
          [Ev.search]).events.count Ev.search) :=
  C6_throttle_amended (fun _ => some ⟨"u", "X"⟩) ["X"] [⟨"a", "b"⟩]
    [("ab", ⟨"Yes", none⟩)] _ rfl

set_option maxRecDepth 100000 in
/-- C6 (counterexample to the claim as stated): in a run with exactly 500
external searches, the single throttle pause happens when only 499 searches
have completed (immediately before the 500th), whereas the claim places a
pause after every 500 completed resolver calls. -/
theorem C6_throttle_counterexample :
    Except.map
        (fun st => (searchesBeforeFirstSleep st.events, st.events.count Ev.sleep))
        (update_loop c6search [] c6songs c6cache)
      = .ok (499, 1) ∧ (499 : Nat) ≠ 500 :=
  ⟨rfl, by decide⟩

theorem chunk100Aux_congr (f1 : Nat) :
    ∀ (f2 : Nat) (l : List String), l.length ≤ f1 → l.length ≤ f2 →
      chunk100Aux f1 l = chunk100Aux f2 l := by
  induction f1 with
  | zero =>
      intro f2 l h1 _
      have : l = [] := List.eq_nil_of_length_eq_zero (by omega)
      subst this
      cases f2 <;> rfl
  | succ g ih =>
      intro f2 l h1 h2
      cases l with
      | nil => cases f2 <;> rfl
      | cons x xs =>
          cases f2 with
          | zero => simp at h2
          | succ h2' =>
              show (x :: xs).take 100 :: chunk100Aux g ((x :: xs).drop 100)
                  = (x :: xs).take 100 :: chunk100Aux h2' ((x :: xs).drop 100)
              have hd : ((x :: xs).drop 100).length ≤ g := by
                simp only [List.length_drop, List.length_cons] at *
                omega
              have hd2 : ((x :: xs).drop 100).length ≤ h2' := by
                simp only [List.length_drop, List.length_cons] at *
                omega
              rw [ih h2' ((x :: xs).drop 100) hd hd2]

theorem chunk100_cons (l : List String) (h : l ≠ []) :
    chunk100 l = l.take 100 :: chunk100 (l.drop 100) := by
  cases l with
  | nil => exact absurd rfl h
  | cons x xs =>
      show (x :: xs).take 100 :: chunk100Aux xs.length ((x :: xs).drop 100)
          = (x :: xs).take 100 :: chunk100 ((x :: xs).drop 100)
      have hd : ((x :: xs).drop 100).length ≤ xs.length := by
        simp only [List.length_drop, List.length_cons]
        omega
      rw [chunk100Aux_congr xs.length ((x :: xs).drop 100).length
        ((x :: xs).drop 100) hd le_rfl]
      rfl

theorem chunk100_spec (n : Nat) : ∀ l : List String, l.length ≤ n →
    (chunk100 l).map List.length
        = List.replicate (l.length / 100) 100
          ++ (if l.length % 100 = 0 then [] else [l.length % 100]) ∧
    (chunk100 l).flatten = l := by
  induction n with
  | zero =>
      intro l h
      have : l = [] := List.eq_nil_of_length_eq_zero (by omega)
      subst this
      exact ⟨rfl, rfl⟩
  | succ n ih =>
      intro l h
      by_cases hl : l = []
      · subst hl
        exact ⟨rfl, rfl⟩
      · have h0 : 0 < l.length := List.length_pos.mpr hl
        rw [chunk100_cons l hl]
        have hdn : (l.drop 100).length ≤ n := by
          simp only [List.length_drop]
          omega
        obtain ⟨ihm, ihj⟩ := ih (l.drop 100) hdn
        constructor
        · rw [List.map_cons, ihm, List.length_take, List.length_drop]
          rcases Nat.lt_or_ge l.length 100 with hlt | hge
          · have e1 : min 100 l.length = l.length := by omega
            have e2 : l.length - 100 = 0 := by omega
            have e3 : l.length / 100 = 0 := by omega
            have e4 : ¬(l.length % 100 = 0) := by omega
            have e5 : l.length % 100 = l.length := by omega
            rw [e1, e2, e3, e5]
            simp [hl]
          · have e1 : min 100 l.length = 100 := by omega
            have e2 : l.length / 100 = (l.length - 100) / 100 + 1 := by omega
            have e3 : l.length % 100 = (l.length - 100) % 100 := by omega
            rw [e1, e2, e3, List.replicate_succ]
            simp
        · rw [List.flatten_cons, ihj, List.take_append_drop]

/-- C7: the batching of lines 160-166 submits the to-add URIs in
consecutive batches of exactly 100 with the remainder in the final batch
(the batch length list is `replicate (n / 100) 100` followed by `n % 100`
when nonzero), concatenating the batches recovers the to-add list in order,
an empty to-add list produces no add call, and 250 tracks yield exactly the
three batch sizes 100/100/50. -/
theorem C7_batching (l : List String) :
    ((chunk100 l).map List.length
        = List.replicate (l.length / 100) 100
          ++ (if l.length % 100 = 0 then [] else [l.length % 100])) ∧
    (chunk100 l).flatten = l ∧
    chunk100 [] = [] ∧
    (chunk100 (List.replicate 250 "u")).map List.length = [100, 100, 50] := by
  obtain ⟨h1, h2⟩ := chunk100_spec l.length l le_rfl
  refine ⟨h1, h2, rfl, ?_⟩
  obtain ⟨h3, _⟩ := chunk100_spec 250 (List.replicate 250 "u")
    (by rw [List.length_replicate])
  rw [h3, List.length_replicate]
  decide

theorem mk_data : ∀ s : String, String.mk s.data = s
  | ⟨_⟩ => rfl

theorem dropPfx_self : ∀ p rest : List Char, dropPfx p (p ++ rest) = some rest := by
  intro p
  induction p with
  | nil => intro rest; rfl
  | cons e es ih => intro rest; simp [dropPfx, ih]

theorem parseStringBody_escape : ∀ s rest : List Char,
    parseStringBody (escapeChars s ++ (qc :: rest)) = some (s, rest) := by
  intro s
  induction s with
  | nil =>
      intro rest
      rw [show escapeChars [] ++ (qc :: rest) = qc :: rest from rfl,
        parseStringBody.eq_def]
      rfl
  | cons c s' ih =>
      intro rest
      by_cases hc : c = qc ∨ c = bsC
      · rw [show escapeChars (c :: s') ++ (qc :: rest)
            = bsC :: (c :: (escapeChars s' ++ (qc :: rest))) from by
          simp [escapeChars, hc]]
        rw [parseStringBody.eq_def]
        simp [hc, (show ¬(bsC = qc) by decide), ih]
      · have h1 : ¬(c = qc) := fun h => hc (.inl h)
        have h2 : ¬(c = bsC) := fun h => hc (.inr h)
        rw [show escapeChars (c :: s') ++ (qc :: rest)
            = c :: (escapeChars s' ++ (qc :: rest)) from by
          simp [escapeChars, hc]]
        rw [parseStringBody.eq_def]
        simp [h1, h2, ih]

theorem parseStr_strLit (s : String) (rest : List Char) :
    parseStr (strLit s ++ rest) = some (s.data, rest) := by
  simp [strLit, parseStr, List.append_assoc, parseStringBody_escape]

theorem parseIdOpt_idLit (o : Option String) (rest : List Char) :
    parseIdOpt (idLit o ++ rest) = some (o, rest) := by
  cases o with
  | some s =>
      simp [idLit, strLit, parseIdOpt, parseStr, List.append_assoc,
        parseStringBody_escape, mk_data]
  | none =>
      simp [idLit, nullChars, parseIdOpt, dropPfx,
        (show ¬(('n' : Char) = qc) by decide)]

theorem parseRecord_serialize (r : CacheRecord) (rest : List Char) :
    parseRecord (serializeRecord r ++ rest) = some (r, rest) := by
  simp only [serializeRecord, List.append_assoc, List.cons_append,
    List.singleton_append]
  simp [parseRecord, dropPfx_self, parseStr_strLit, parseIdOpt_idLit,
    mk_data, dropPfx]

theorem length_serializeEntries : ∀ c : Cache,
    c.length ≤ (serializeEntries c).length := by
  intro c
  induction c with
  | nil => simp [serializeEntries]
  | cons e tl ih =>
      cases tl with
      | nil =>
          simp only [serializeEntries, serializeEntry, strLit,
            List.length_append, List.length_cons, List.length_nil]
          omega
      | cons e' tl' =>
          simp only [serializeEntries, List.length_append,
            List.length_cons] at *
          omega

theorem serializeEntries_head (e : String × CacheRecord) (tl : Cache) :
    ∃ t, serializeEntries (e :: tl) = qc :: t := by
  cases tl <;> exact ⟨_, rfl⟩

theorem parseEntries_serialize : ∀ c : Cache, c ≠ [] → ∀ fuel : Nat,
    c.length ≤ fuel → ∀ rest : List Char,
    parseEntries fuel (serializeEntries c ++ (rbC :: rest)) = some (c, rest) := by
  intro c
  induction c with
  | nil => intro h; exact absurd rfl h
  | cons e tl ih =>
      intro _ fuel hfuel rest
      cases fuel with
      | zero => simp at hfuel
      | succ f =>
          cases tl with
          | nil =>
              simp only [serializeEntries, serializeEntry, List.append_assoc]
              simp [parseEntries, parseStr_strLit, dropPfx,
                parseRecord_serialize, mk_data]
          | cons e' tl' =>
              simp only [serializeEntries, serializeEntry, List.append_assoc,
                List.cons_append]
              have hlen' : (e' :: tl').length ≤ f := by
                simp only [List.length_cons] at *
                omega
              simp [parseEntries, parseStr_strLit, dropPfx,
                parseRecord_serialize, mk_data,
                (show ¬(commaC = rbC) by decide),
                ih (List.cons_ne_nil e' tl') f hlen' rest]

theorem parseCache_serialize (c : Cache) :
    parseCache (serializeCache c) = some c := by
  cases c with
  | nil => rfl
  | cons e tl =>
      obtain ⟨t, ht⟩ := serializeEntries_head e tl
      rw [show serializeCache (e :: tl) = lbC :: (qc :: (t ++ [rbC])) from by
        simp [serializeCache, ht]]
      have hlen2 : (e :: tl).length ≤ (lbC :: qc :: (t ++ [rbC])).length := by
        have h1 := length_serializeEntries (e :: tl)
        rw [ht] at h1
        simp only [List.length_cons, List.length_append] at *
        omega
      have hg := parseEntries_serialize (e :: tl) (List.cons_ne_nil e tl)
        ((lbC :: qc :: (t ++ [rbC])).length) hlen2 []
      rw [ht] at hg
      simp only [List.cons_append] at hg
      simp only [List.length_cons, List.length_nil, Nat.zero_add,
        List.length_append] at hg
      simp [parseCache, (show ¬(qc = rbC) by decide), hg]

/-- C9: saving any cache mapping conforming to the schema and loading it
back yields the same mapping — the `json.dump` / `json.load` round trip is
lossless for the defined schema, including keys and values containing
quotes or backslashes. -/
theorem C9_cache_round_trip (c : Cache) :
    load_cache (some (save_cache c)) = .ok c := by
  show load_cache (some (serializeCache c)) = .ok c
  simp [load_cache, parseCache_serialize]

/-- C5 (counterexample to the claim as stated): the claim's "if and only
if" fails in the only-if direction — an EXISTING store whose content is the
serialization of the empty mapping also makes `load_cache` return an empty
mapping, so an empty result does not imply the file was absent. -/
theorem C5_empty_not_iff_absent :
    load_cache (some (save_cache [])) = .ok [] ∧
    some (save_cache []) ≠ (none : Option (List Char)) := by
  refine ⟨rfl, ?_⟩
  intro h
  cases h

/-- C5 (amended): `load_cache` returns an empty mapping when the store is
absent, and fails with an error — never silently returning a partial or
empty mapping — when the store exists but its content is not well-formed
serialized data; however an existing well-formed store serializing the
empty mapping also yields an empty mapping, so "empty" does not imply
"absent". -/
theorem C5_load_error_handling (s : List Char) (h : parseCache s = none) :
    load_cache (some s) = .error .corrupt ∧
    load_cache none = .ok ([] : Cache) := by
  refine ⟨?_, rfl⟩
  simp [load_cache, h]

theorem C5_load_error_handling_witness :
    load_cache (some ['x']) = .error .corrupt ∧
    load_cache none = .ok ([] : Cache) :=
  C5_load_error_handling ['x'] (by decide)

end Scrape
